import Mathlib

/-!
# Verification of the mobile-sdk tile-layer core

Shallow embedding of the tile caching subsystem declared in
`src/all/native/layers/VectorTileLayer.h` and of the camera pan event in
`src/all/native/renderers/cameraevents/CameraPanEvent.cpp`.

The repository sources provide the `VectorTileLayer` header (constants and
declarations) and the full body of `CameraPanEvent.cpp`.  The implementation
of `cache::timed_lru_cache` (from `stdext/timed_lru_cache.h`) and the bodies
of the `VectorTileLayer` methods are not part of the sources, so those parts
are modelled from the specification, as marked in the doc comments below.
-/

namespace MobileSdk

/-! ## Timed LRU cache

Modelled from the spec: `TimedLRUCache` is a generic capacity- and
time-bounded cache mapping a 64-bit tile id to a decoded value, with
byte-size accounting, LRU eviction, and per-entry expiry checked lazily. -/

/-- Modelled from the spec: a `CacheEntry` is
(TileId, value, size-in-bytes, last-access-timestamp). -/
structure CacheEntry (α : Type) where
  id : Int
  value : α
  size : Nat
  accessTime : Nat
  deriving Repr, DecidableEq

/-- Modelled from the spec: the cache state is a configured byte capacity
together with the resident entries kept in recency order, most recently
used first.  The capacity is an `Int` so that the "zero or negative
capacity" configuration of the spec's error-handling section is
representable. -/
structure TimedLruCache (α : Type) where
  capacity : Int
  entries : List (CacheEntry α)
  deriving Repr, DecidableEq

variable {α : Type}

/-- Total accounted size of a list of cache entries. -/
def totalSize (es : List (CacheEntry α)) : Nat :=
  (es.map (fun e => e.size)).sum

/-- Modelled from the spec: evict least-recently-used entries (the tail of
the recency-ordered list) until the total size is at or below the capacity.
The helper works on the reversed, LRU-first list and drops entries from the
front while the total size exceeds the capacity. -/
def dropLruWhileOver (cap : Int) : List (CacheEntry α) → List (CacheEntry α)
  | [] => []
  | e :: es =>
      if (totalSize (e :: es) : Int) ≤ cap then e :: es
      else dropLruWhileOver cap es

/-- Modelled from the spec: eviction on the MRU-first entry list. -/
def evict (cap : Int) (es : List (CacheEntry α)) : List (CacheEntry α) :=
  (dropLruWhileOver cap es.reverse).reverse

/-- Remove the entry with the given id, keeping the order of the rest. -/
def removeEntry (i : Int) (es : List (CacheEntry α)) : List (CacheEntry α) :=
  es.filter (fun e => e.id ≠ i)

/-- The cache with the given capacity and no entries. -/
def emptyCache (cap : Int) : TimedLruCache α :=
  { capacity := cap, entries := [] }

namespace TimedLruCache

/-- Modelled from the spec: `put(id, value, sizeBytes)` inserts or replaces
the entry (stamped with the current time) at the most-recently-used
position, then evicts least-recently-used entries until the total size is
at or below the capacity. -/
def put (c : TimedLruCache α) (i : Int) (v : α) (sz : Nat) (now : Nat) :
    TimedLruCache α :=
  let e : CacheEntry α := { id := i, value := v, size := sz, accessTime := now }
  { c with entries := evict c.capacity (e :: removeEntry i c.entries) }

/-- Look up the entry with the given id without touching recency. -/
def find? (c : TimedLruCache α) (i : Int) : Option (CacheEntry α) :=
  c.entries.find? (fun e => e.id = i)

/-- Modelled from the spec: `get(id)` returns the cached value if present,
marks the entry accessed (refreshing its timestamp) and moves it to the
most-recently-used position. -/
def get (c : TimedLruCache α) (i : Int) (now : Nat) :
    Option α × TimedLruCache α :=
  match c.find? i with
  | none => (none, c)
  | some e =>
      (some e.value,
        { c with entries := { e with accessTime := now } :: removeEntry i c.entries })

/-- Modelled from the spec: `remove(id)` drops the entry with the given id. -/
def removeId (c : TimedLruCache α) (i : Int) : TimedLruCache α :=
  { c with entries := removeEntry i c.entries }

/-- Modelled from the spec: `clear()` empties the cache. -/
def clear (c : TimedLruCache α) : TimedLruCache α :=
  { c with entries := [] }

/-- Modelled from the spec: `setCapacity(bytes)` installs the new capacity
and triggers immediate eviction if it is smaller than the current usage. -/
def setCapacity (c : TimedLruCache α) (cap : Int) : TimedLruCache α :=
  { capacity := cap, entries := evict cap c.entries }

/-- Modelled from the spec: `containsValidEntry(id, ttl)` returns false if
no entry exists or if the entry's age exceeds its time-to-live, without
evicting anything.  The unchanged cache is returned alongside the answer. -/
def containsValidEntry (c : TimedLruCache α) (i : Int) (ttl : Nat) (now : Nat) :
    Bool × TimedLruCache α :=
  match c.find? i with
  | none => (false, c)
  | some e => (decide (now - e.accessTime ≤ ttl), c)

end TimedLruCache

/-- A cache operation, used to quantify over operation sequences. -/
inductive CacheOp (α : Type) where
  | put (i : Int) (v : α) (sz : Nat) (now : Nat)
  | get (i : Int) (now : Nat)
  | removeId (i : Int)
  | clear
  | setCapacity (cap : Int)
  deriving Repr

/-- Apply one operation to a cache state. -/
def applyCacheOp (c : TimedLruCache α) : CacheOp α → TimedLruCache α
  | .put i v sz now => c.put i v sz now
  | .get i now => (c.get i now).2
  | .removeId i => c.removeId i
  | .clear => c.clear
  | .setCapacity cap => c.setCapacity cap

/-- Run a sequence of operations from left to right. -/
def runOps (ops : List (CacheOp α)) (c : TimedLruCache α) : TimedLruCache α :=
  ops.foldl applyCacheOp c

/-- Run a sequence of `put` operations (id, value, size, time). -/
def runPuts (ops : List (Int × α × Nat × Nat)) (c : TimedLruCache α) :
    TimedLruCache α :=
  ops.foldl (fun c q => c.put q.1 q.2.1 q.2.2.1 q.2.2.2) c

/-! ### Eviction lemmas -/

theorem totalSize_cons (e : CacheEntry α) (es : List (CacheEntry α)) :
    totalSize (e :: es) = e.size + totalSize es := by
  simp [totalSize]

theorem totalSize_reverse (es : List (CacheEntry α)) :
    totalSize es.reverse = totalSize es := by
  simp [totalSize, List.sum_reverse]

/-- After dropping LRU entries, the accounted size is at or below the
capacity (or everything has been dropped, when the capacity is negative). -/
theorem totalSize_dropLruWhileOver_le (cap : Int) (es : List (CacheEntry α)) :
    (totalSize (dropLruWhileOver cap es) : Int) ≤ max cap 0 := by
  induction es with
  | nil => simp [dropLruWhileOver, totalSize]
  | cons e es ih =>
      by_cases h : (totalSize (e :: es) : Int) ≤ cap
      · simp only [dropLruWhileOver, if_pos h]
        exact le_trans h (le_max_left _ _)
      · simpa [dropLruWhileOver, if_neg h] using ih

/-- Eviction brings the accounted size at or below the capacity. -/
theorem totalSize_evict_le (cap : Int) (es : List (CacheEntry α)) :
    (totalSize (evict cap es) : Int) ≤ max cap 0 := by
  have h := totalSize_dropLruWhileOver_le cap es.reverse
  simpa [evict, totalSize_reverse] using h

/-- With a nonnegative capacity, eviction enforces the capacity bound. -/
theorem totalSize_evict_le_cap (cap : Int) (hcap : 0 ≤ cap)
    (es : List (CacheEntry α)) :
    (totalSize (evict cap es) : Int) ≤ cap := by
  have h := totalSize_evict_le cap es
  have : max cap 0 = cap := max_eq_left hcap
  omega

theorem put_capacity (c : TimedLruCache α) (i : Int) (v : α) (sz now : Nat) :
    (c.put i v sz now).capacity = c.capacity := rfl

theorem runPuts_capacity (ops : List (Int × α × Nat × Nat)) (c : TimedLruCache α) :
    (runPuts ops c).capacity = c.capacity := by
  induction ops generalizing c with
  | nil => rfl
  | cons q ops ih => simpa [runPuts] using ih (c.put q.1 q.2.1 q.2.2.1 q.2.2.2)

theorem totalSize_put_le (c : TimedLruCache α) (i : Int) (v : α) (sz now : Nat) :
    (totalSize (c.put i v sz now).entries : Int) ≤ max c.capacity 0 :=
  totalSize_evict_le c.capacity _

/-- **C1.** For every sequence of `put` operations on a cache with a
nonnegative configured capacity (the interface type is `std::size_t`, so
every configured capacity is nonnegative), the total accounted size of the
cache is at or below the capacity at the moment each `put` call returns:
every prefix of the sequence is itself such a sequence, so quantifying over
all sequences covers every intermediate state.  `put` inserts or replaces
the entry and then evicts least-recently-used entries until the total size
is at or below the capacity. -/
theorem put_sequences_respect_capacity (cap : Int) (hcap : 0 ≤ cap)
    (ops : List (Int × α × Nat × Nat)) :
    (totalSize (runPuts ops (emptyCache cap)).entries : Int) ≤ cap := by
  have key : ∀ (ops : List (Int × α × Nat × Nat)) (c : TimedLruCache α),
      c.capacity = cap → (totalSize c.entries : Int) ≤ cap →
      (totalSize (runPuts ops c).entries : Int) ≤ cap := by
    intro ops
    induction ops with
    | nil => intro c _ h; simpa [runPuts] using h
    | cons q ops ih =>
        intro c hc h
        have hstep : (totalSize (c.put q.1 q.2.1 q.2.2.1 q.2.2.2).entries : Int) ≤ cap := by
          have := totalSize_put_le c q.1 q.2.1 q.2.2.1 q.2.2.2
          rw [hc] at this
          omega
        have hcap2 : (c.put q.1 q.2.1 q.2.2.1 q.2.2.2).capacity = cap := by
          rw [put_capacity, hc]
        simpa [runPuts] using ih _ hcap2 hstep
  exact key ops (emptyCache cap) rfl (by simpa [emptyCache, totalSize] using hcap)

/-- Witness for C1 at a concrete input. -/
theorem put_sequences_respect_capacity_witness :
    (totalSize (runPuts [((1 : Int), (0 : Nat), 2, 0), ((2 : Int), (0 : Nat), 2, 1)]
      (emptyCache 3)).entries : Int) ≤ 3 :=
  put_sequences_respect_capacity 3 (by decide) _

/-! ### Uniform entry sizes: eviction keeps the K most recent entries -/

theorem totalSize_uniform (s : Nat) (es : List (CacheEntry α))
    (h : ∀ e ∈ es, e.size = s) : totalSize es = es.length * s := by
  induction es with
  | nil => simp [totalSize]
  | cons e es ih =>
      rw [totalSize_cons, ih (fun e2 he2 => h e2 (List.mem_cons_of_mem _ he2)),
        h e (List.mem_cons_self e es)]
      simp [List.length_cons]
      ring

theorem dropLruWhileOver_uniform (s K : Nat) (hs : 0 < s)
    (es : List (CacheEntry α)) (h : ∀ e ∈ es, e.size = s) :
    dropLruWhileOver ((K * s : Nat) : Int) es = es.drop (es.length - K) := by
  induction es with
  | nil => simp [dropLruWhileOver]
  | cons e es ih =>
      have hsz : totalSize (e :: es) = (es.length + 1) * s :=
        totalSize_uniform s _ h
      by_cases hle : es.length + 1 ≤ K
      · have hc : (totalSize (e :: es) : Int) ≤ ((K * s : Nat) : Int) := by
          rw [hsz]
          exact_mod_cast Nat.mul_le_mul_right s hle
        rw [dropLruWhileOver, if_pos hc]
        have : es.length + 1 - K = 0 := by omega
        simp [this]
      · have hc : ¬ (totalSize (e :: es) : Int) ≤ ((K * s : Nat) : Int) := by
          rw [hsz]
          intro hcon
          have : (es.length + 1) * s ≤ K * s := by exact_mod_cast hcon
          have : es.length + 1 ≤ K := Nat.le_of_mul_le_mul_right this hs
          omega
        rw [dropLruWhileOver, if_neg hc,
          ih (fun e2 he2 => h e2 (List.mem_cons_of_mem _ he2))]
        have hlen : (e :: es).length - K = (es.length - K) + 1 := by
          simp only [List.length_cons]
          omega
        rw [hlen, List.drop_succ_cons]

theorem evict_uniform (s K : Nat) (hs : 0 < s)
    (es : List (CacheEntry α)) (h : ∀ e ∈ es, e.size = s) :
    evict ((K * s : Nat) : Int) es = es.take K := by
  unfold evict
  rw [dropLruWhileOver_uniform s K hs es.reverse
    (fun e2 he2 => h e2 (List.mem_reverse.mp he2)), List.length_reverse]
  have hrt : (es.take K).reverse = es.reverse.drop (es.length - K) :=
    List.reverse_take
  rw [← hrt, List.reverse_reverse]

/-- If no entry carries the given id, removal does nothing. -/
theorem removeEntry_eq_self (i : Int) (es : List (CacheEntry α))
    (h : ∀ e ∈ es, e.id ≠ i) : removeEntry i es = es := by
  rw [removeEntry, List.filter_eq_self]
  intro e he
  simpa using h e he

/-- State reached by putting a duplicate-free list of fresh ids with equal
sizes `s` and capacity for `K` such entries: the cache retains the `K` most
recently inserted ids, most recent first. -/
theorem runPuts_fresh_ids (s K : Nat) (hs : 0 < s) (v : α) (p : List Int)
    (hnd : p.Nodup) :
    ((runPuts (p.map fun i => (i, v, s, 0)) (emptyCache ((K * s : Nat) : Int))).entries.map
        (fun e => e.id)) = p.reverse.take K ∧
      (∀ e ∈ (runPuts (p.map fun i => (i, v, s, 0)) (emptyCache ((K * s : Nat) : Int))).entries,
        e.size = s) := by
  induction p using List.reverseRecOn with
  | nil => simp [runPuts, emptyCache]
  | append_singleton q i ih =>
      have hndq : q.Nodup := (List.nodup_append.mp hnd).1
      have hni : i ∉ q := by
        have hd := (List.nodup_append.mp hnd).2.2
        intro hm
        exact hd hm (by simp)
      obtain ⟨ihids, ihsz⟩ := ih hndq
      set c1 := runPuts (q.map fun j => (j, v, s, 0)) (emptyCache ((K * s : Nat) : Int)) with hc1
      have hrun : runPuts ((q ++ [i]).map fun j => (j, v, s, 0))
          (emptyCache ((K * s : Nat) : Int)) = c1.put i v s 0 := by
        rw [List.map_append]
        simp [runPuts, List.foldl_append, hc1]
      have hcap : c1.capacity = ((K * s : Nat) : Int) := by
        rw [hc1, runPuts_capacity]; rfl
      have hfresh : ∀ e ∈ c1.entries, e.id ≠ i := by
        intro e he
        have : e.id ∈ c1.entries.map (fun e => e.id) := List.mem_map_of_mem _ he
        rw [ihids] at this
        have : e.id ∈ q := List.mem_reverse.mp (List.take_subset _ _ this)
        intro hcon
        exact hni (hcon ▸ this)
      have hrm : removeEntry i c1.entries = c1.entries :=
        removeEntry_eq_self i c1.entries hfresh
      set enew : CacheEntry α := { id := i, value := v, size := s, accessTime := 0 } with he
      have hsz2 : ∀ e ∈ enew :: c1.entries, e.size = s := by
        intro e he2
        rcases List.mem_cons.mp he2 with h1 | h2
        · rw [h1]
        · exact ihsz e h2
      have hput : (c1.put i v s 0).entries = (enew :: c1.entries).take K := by
        rw [TimedLruCache.put, hrm, hcap]
        exact evict_uniform s K hs _ hsz2
      constructor
      · rw [hrun, hput, List.map_take]
        simp only [List.map_cons, ihids]
        rw [List.reverse_append]
        simp only [List.reverse_singleton, List.singleton_append]
        cases K with
        | zero => simp
        | succ K2 =>
            simp only [List.take_succ_cons, List.take_take]
            rw [min_eq_left (Nat.le_succ K2)]
      · rw [hrun, hput]
        intro e he2
        exact hsz2 e (List.take_subset _ _ he2)

/-- A successful lookup returns an entry carrying the looked-up id. -/
theorem find?_id_eq (c : TimedLruCache α) (i : Int) (e : CacheEntry α)
    (h : c.find? i = some e) : e.id = i := by
  rw [TimedLruCache.find?] at h
  simpa using List.find?_some h

/-- **C2.** With a capacity fitting exactly `K` equal-size entries,
inserting `K + 1` distinct ids evicts exactly the least-recently-inserted
entry (the cache retains the later `K` ids, most recent first); a `get` on
a resident entry moves it to the most-recently-used position; and in the
concrete scenario with capacity 3, sizes 1, inserting A, B, C, then
`get(A)`, then inserting D leaves exactly D, A, C resident, with B
evicted. -/
theorem lru_evicts_least_recently_used :
    (∀ (β : Type) (s K : Nat) (v : β) (ids : List Int), 0 < s →
      ids.length = K + 1 → ids.Nodup →
      ((runPuts (ids.map fun i => (i, v, s, 0)) (emptyCache ((K * s : Nat) : Int))).entries.map
        (fun e => e.id)) = (ids.drop 1).reverse) ∧
    (∀ (β : Type) (c : TimedLruCache β) (i : Int) (now : Nat) (e : CacheEntry β),
      c.find? i = some e →
      ((c.get i now).2.entries.map (fun e2 => e2.id)).head? = some i) ∧
    ((((((emptyCache (α := Nat) 3).put 10 0 1 0).put 20 0 1 1).put 30 0 1 2).get
        10 3).2.put 40 0 1 4).entries.map (fun e => e.id) = [40, 10, 30] := by
  refine ⟨?_, ?_, by decide⟩
  · intro β s K v ids hs hlen hnd
    have h := (runPuts_fresh_ids s K hs v ids hnd).1
    rw [h]
    have hrt : ((ids.reverse.take K).reverse : List Int) =
        ids.reverse.reverse.drop (ids.reverse.length - K) := List.reverse_take
    rw [List.reverse_reverse, List.length_reverse, hlen] at hrt
    have : K + 1 - K = 1 := by omega
    rw [this] at hrt
    calc ids.reverse.take K = (ids.reverse.take K).reverse.reverse := by
          rw [List.reverse_reverse]
      _ = (ids.drop 1).reverse := by rw [hrt]
  · intro β c i now e hfind
    rw [TimedLruCache.get, hfind]
    simpa using find?_id_eq c i e hfind

/-- Witness for C2 at concrete inputs. -/
theorem lru_evicts_least_recently_used_witness :
    ((runPuts ([(10 : Int), 20, 30, 40].map fun i => (i, (0 : Nat), 1, 0))
        (emptyCache ((3 * 1 : Nat) : Int))).entries.map (fun e => e.id)) =
      (([(10 : Int), 20, 30, 40].drop 1)).reverse :=
  lru_evicts_least_recently_used.1 Nat 1 3 0 [10, 20, 30, 40] (by decide)
    (by decide) (by decide)

/-! ## VectorTileLayer constants and configuration surface

The four constants are taken from `src/all/native/layers/VectorTileLayer.h`
lines 168-171. -/

/-- `static const int CULL_DELAY_TIME = 200;` (header, line 168). -/
def CULL_DELAY_TIME : Int := 200

/-- `static const int PRELOADING_PRIORITY_OFFSET = -2;` (header, line 169). -/
def PRELOADING_PRIORITY_OFFSET : Int := -2

/-- `static const int EXTRA_TILE_FOOTPRINT = 4096;` (header, line 170). -/
def EXTRA_TILE_FOOTPRINT : Int := 4096

/-- `static const int DEFAULT_PRELOADING_CACHE_SIZE = 10 * 1024 * 1024;`
(header, line 171). -/
def DEFAULT_PRELOADING_CACHE_SIZE : Int := 10 * 1024 * 1024

/-- The layer state the claims touch: the visible and the preloading cache
(header, lines 184-185). -/
structure VectorTileLayerModel (α : Type) where
  visibleCache : TimedLruCache α
  preloadingCache : TimedLruCache α
  deriving Repr

/-- Modelled from the spec: the constructor body is not in the sources; the
spec fixes the default capacity of the primary (visible) cache at 10 MiB,
the header constant `DEFAULT_PRELOADING_CACHE_SIZE`. -/
def mkVectorTileLayer (α : Type) : VectorTileLayerModel α :=
  { visibleCache := emptyCache DEFAULT_PRELOADING_CACHE_SIZE,
    preloadingCache := emptyCache DEFAULT_PRELOADING_CACHE_SIZE }

/-- Modelled from the spec: `getTileCacheCapacity()` (header, line 69)
returns the capacity of the primary/visible cache; its body is not in the
sources. -/
def getTileCacheCapacity (l : VectorTileLayerModel α) : Int :=
  l.visibleCache.capacity

/-- Modelled from the spec: `setTileCacheCapacity(capacityInBytes)`
(header, line 79, parameter type `std::size_t`) applies the new capacity to
the primary/visible cache; its body is not in the sources. -/
def setTileCacheCapacity (l : VectorTileLayerModel α) (capacityInBytes : Nat) :
    VectorTileLayerModel α :=
  { l with visibleCache := l.visibleCache.setCapacity (capacityInBytes : Int) }

/-- **C3.** A zero or negative cache capacity is never an illegal state:
installing it evicts down to an accounted size of zero, `setCapacity`
triggers immediate eviction whenever the new capacity is below the current
usage, and after `setTileCacheCapacity(0)` any subsequent `put` of an entry
of size 100 leaves the accounted size at 0 the moment the `put` returns. -/
theorem zero_or_negative_capacity_holds_nothing (α : Type)
    (c : TimedLruCache α) (capn : Int) (hneg : capn ≤ 0) :
    totalSize (c.setCapacity capn).entries = 0 ∧
    (∀ (l : VectorTileLayerModel α) (i : Int) (v : α) (t : Nat),
      totalSize (((setTileCacheCapacity l 0).visibleCache).put i v 100 t).entries = 0) ∧
    (∀ cap2 : Int, (totalSize (c.setCapacity cap2).entries : Int) ≤ max cap2 0) := by
  refine ⟨?_, ?_, ?_⟩
  · have h := totalSize_evict_le capn c.entries
    have hmax : max capn 0 = 0 := max_eq_right hneg
    rw [hmax] at h
    have hz : (totalSize (evict capn c.entries) : Int) = 0 :=
      le_antisymm h (Int.natCast_nonneg _)
    exact_mod_cast hz
  · intro l i v t
    have h := totalSize_evict_le ((setTileCacheCapacity l 0).visibleCache.capacity)
      ({ id := i, value := v, size := 100, accessTime := t } ::
        removeEntry i (setTileCacheCapacity l 0).visibleCache.entries)
    have hcap : (setTileCacheCapacity l 0).visibleCache.capacity = 0 := rfl
    rw [hcap] at h
    simp only [max_self] at h
    have hz : (totalSize (((setTileCacheCapacity l 0).visibleCache).put i v 100 t).entries : Int)
        = 0 := by
      refine le_antisymm ?_ (Int.natCast_nonneg _)
      simpa [TimedLruCache.put, hcap] using h
    exact_mod_cast hz
  · intro cap2
    exact totalSize_evict_le cap2 c.entries

/-- Witness for C3 at a concrete input. -/
theorem zero_or_negative_capacity_holds_nothing_witness :
    totalSize (((emptyCache (α := Nat) 5).put 1 0 3 0).setCapacity (-1)).entries = 0 :=
  (zero_or_negative_capacity_holds_nothing Nat ((emptyCache (α := Nat) 5).put 1 0 3 0)
    (-1) (by decide)).1

/-- **C7.** If the cache holds an entry for an id whose age exceeds the
given time-to-live, `containsValidEntry` answers false and leaves the cache
(entries, sizes and recency order) completely unchanged: the expired entry
is not evicted. -/
theorem containsValidEntry_expired_not_evicted (α : Type)
    (c : TimedLruCache α) (i : Int) (ttl now : Nat) (e : CacheEntry α)
    (hfind : c.find? i = some e) (hexp : ttl < now - e.accessTime) :
    (c.containsValidEntry i ttl now).1 = false ∧
    (c.containsValidEntry i ttl now).2 = c := by
  rw [TimedLruCache.containsValidEntry, hfind]
  refine ⟨?_, rfl⟩
  simp only [decide_eq_false_iff_not, not_le]
  exact hexp

/-- Witness for C7 at a concrete input. -/
theorem containsValidEntry_expired_not_evicted_witness :
    (((emptyCache (α := Nat) 10).put 7 0 1 0).containsValidEntry 7 2 5).1 = false ∧
    (((emptyCache (α := Nat) 10).put 7 0 1 0).containsValidEntry 7 2 5).2 =
      ((emptyCache (α := Nat) 10).put 7 0 1 0) :=
  containsValidEntry_expired_not_evicted Nat ((emptyCache (α := Nat) 10).put 7 0 1 0)
    7 2 5 { id := 7, value := 0, size := 1, accessTime := 0 } (by decide) (by decide)

/-- **C4.** The default tile cache capacity, before any
`setTileCacheCapacity` call, is `DEFAULT_PRELOADING_CACHE_SIZE` =
10 * 1024 * 1024 bytes = 10 MiB, and the capacity setting applies to the
primary/visible cache, leaving the preloading cache untouched. -/
theorem default_tile_cache_capacity_is_10MiB (α : Type) :
    getTileCacheCapacity (mkVectorTileLayer α) = DEFAULT_PRELOADING_CACHE_SIZE ∧
    DEFAULT_PRELOADING_CACHE_SIZE = 10 * 1024 * 1024 ∧
    (∀ (l : VectorTileLayerModel α) (cap : Nat),
      getTileCacheCapacity (setTileCacheCapacity l cap) = (cap : Int) ∧
      (setTileCacheCapacity l cap).preloadingCache = l.preloadingCache) :=
  ⟨rfl, rfl, fun _ _ => ⟨rfl, rfl⟩⟩

/-- **C5.** `getCullDelay` always returns the fixed constant
`CULL_DELAY_TIME` = 200 milliseconds, independent of any layer state.
Modelled from the spec: the method body is not in the sources; the header
declares the method (line 104) and the constant (line 168). -/
def getCullDelay (_l : VectorTileLayerModel α) : Int :=
  CULL_DELAY_TIME

/-- **C5.** `getCullDelay` returns 200 for every layer state. -/
theorem getCullDelay_constant_200 (α : Type) :
    ∀ l1 l2 : VectorTileLayerModel α, getCullDelay l1 = 200 ∧
      getCullDelay l1 = getCullDelay l2 :=
  fun _ _ => ⟨rfl, rfl⟩

/-! ## Map tiles, tile ids, fetch priority -/

/-- A map tile address (x, y, zoom, frame).  The components are kept as
naturals: the addressable tile space is nonnegative. -/
structure MapTile where
  x : Nat
  y : Nat
  zoom : Nat
  frame : Nat
  deriving Repr, DecidableEq

/-- The addressable tile space assumed by the id encoding: 25 bits for each
of x and y, 5 bits for the zoom level and 8 bits for the frame number,
63 bits in total, so every id fits a 64-bit `long long`. -/
def MapTile.addressable (t : MapTile) : Prop :=
  t.x < 2 ^ 25 ∧ t.y < 2 ^ 25 ∧ t.zoom < 2 ^ 5 ∧ t.frame < 2 ^ 8

/-- Modelled from the spec: `getTileId` (header, line 112) derives a 64-bit
id deterministically from (x, y, zoom, frame); the method body is not in
the sources, so the encoding packs the four components into disjoint bit
ranges, which is collision-free on the addressable tile space. -/
def getTileId (t : MapTile) : Int :=
  ((((t.frame * 2 ^ 5 + t.zoom) * 2 ^ 25 + t.x) * 2 ^ 25 + t.y : Nat) : Int)

/-- **C8.** `getTileId` is a deterministic function of (x, y, zoom, frame):
equal logical tiles get equal ids; it is injective on the addressable tile
space; and on that space the id fits a 64-bit signed integer. -/
theorem getTileId_deterministic_and_injective :
    (∀ t1 t2 : MapTile, t1 = t2 → getTileId t1 = getTileId t2) ∧
    (∀ t1 t2 : MapTile, t1.addressable → t2.addressable →
      getTileId t1 = getTileId t2 → t1 = t2) ∧
    (∀ t : MapTile, t.addressable → 0 ≤ getTileId t ∧ getTileId t < 2 ^ 63) := by
  refine ⟨fun t1 t2 h => by rw [h], ?_, ?_⟩
  · intro t1 t2 h1 h2 heq
    obtain ⟨x1, y1, z1, f1⟩ := t1
    obtain ⟨x2, y2, z2, f2⟩ := t2
    obtain ⟨hx1, hy1, hz1, hf1⟩ := h1
    obtain ⟨hx2, hy2, hz2, hf2⟩ := h2
    simp only [getTileId, Nat.cast_inj] at heq
    simp only [MapTile.addressable] at hx1 hy1 hz1 hf1 hx2 hy2 hz2 hf2
    norm_num at heq hx1 hy1 hz1 hf1 hx2 hy2 hz2 hf2
    simp only [MapTile.mk.injEq]
    omega
  · intro t h
    obtain ⟨x, y, z, f⟩ := t
    obtain ⟨hx, hy, hz, hf⟩ := h
    simp only [getTileId]
    norm_num at hx hy hz hf ⊢
    constructor
    · positivity
    · have : (((f * 32 + z) * 33554432 + x) * 33554432 + y : Nat) <
          9223372036854775808 := by omega
      exact_mod_cast this

/-- Witness for C8 at concrete inputs. -/
theorem getTileId_deterministic_and_injective_witness :
    0 ≤ getTileId { x := 1, y := 2, zoom := 3, frame := 4 } ∧
    getTileId { x := 1, y := 2, zoom := 3, frame := 4 } < 2 ^ 63 :=
  getTileId_deterministic_and_injective.2.2 { x := 1, y := 2, zoom := 3, frame := 4 }
    (by constructor <;> norm_num [MapTile.addressable])

/-- Modelled from the spec: a fetch for a tile is dispatched at the tile's
visible priority, offset by the constant `PRELOADING_PRIORITY_OFFSET`
(header, line 169) when `preloadingTile` is true; the `FetchTask` body is
not in the sources. -/
def fetchTaskPriority (priorityOf : MapTile → Int) (tile : MapTile)
    (preloadingTile : Bool) : Int :=
  if preloadingTile then priorityOf tile + PRELOADING_PRIORITY_OFFSET
  else priorityOf tile

/-- **C6.** For every tile, the preloading fetch priority is strictly lower
than the visible fetch priority for the same tile, the difference being the
fixed constant `PRELOADING_PRIORITY_OFFSET` = -2. -/
theorem preloading_fetch_priority_lower (priorityOf : MapTile → Int) (tile : MapTile) :
    fetchTaskPriority priorityOf tile true < fetchTaskPriority priorityOf tile false ∧
    fetchTaskPriority priorityOf tile true =
      fetchTaskPriority priorityOf tile false + PRELOADING_PRIORITY_OFFSET := by
  constructor
  · simp [fetchTaskPriority, PRELOADING_PRIORITY_OFFSET]
  · rfl

/-! ## CameraPanEvent

Embedding of `src/all/native/renderers/cameraevents/CameraPanEvent.cpp`.
The collaborating types (`MapPos`, `cglib` vectors and matrices,
`ProjectionSurface`, `ViewState`, `Options`, the clamp helpers) are not in
the sources; they are modelled abstractly, since the claims do not depend
on their numeric behaviour: scalar components become `Int`, a translate
matrix is modelled by its action on points and vectors, and the projection
surface and the clamp helpers are arbitrary functions. -/

/-- A map position (doubles in the source, modelled as `Int` components;
no claim depends on floating-point behaviour). -/
structure MapPos where
  x : Int
  y : Int
  z : Int
  deriving Repr, DecidableEq, Inhabited

/-- A 3-vector (`cglib::vec3<double>` in the source). -/
structure Vec3 where
  x : Int
  y : Int
  z : Int
  deriving Repr, DecidableEq, Inhabited

/-- A translate matrix (`cglib::mat4x4<double>`), modelled by its action on
points and on vectors, the only ways `calculate` uses it. -/
structure TranslateTransform where
  applyToPoint : Vec3 → Vec3
  applyToVec : Vec3 → Vec3

/-- `cglib::transform_point`. -/
def transform_point (p : Vec3) (m : TranslateTransform) : Vec3 :=
  m.applyToPoint p

/-- `cglib::transform_vector`. -/
def transform_vector (v : Vec3) (m : TranslateTransform) : Vec3 :=
  m.applyToVec v

/-- A projection surface, modelled by the two operations `calculate` uses.
The `1.0f` interpolation factor passed to `calculateTranslateMatrix` at
both call sites is constant and folded into the model. -/
structure ProjectionSurface where
  calculatePosition : MapPos → Vec3
  calculateTranslateMatrix : Vec3 → Vec3 → TranslateTransform

/-- Engine options, opaque to `CameraPanEvent::calculate` itself (only the
clamp helpers read them). -/
structure Options where
  mk ::

/-- The slice of `ViewState` that `CameraPanEvent::calculate` reads and
writes.  `getProjectionSurface` may be null, hence the `Option`.
`cameraChanged()` is modelled as setting a flag (the source defers matrix
recomputation to the next `onDrawFrame` call). -/
structure ViewState where
  projectionSurface : Option ProjectionSurface
  cameraPos : Vec3
  focusPos : Vec3
  upVec : Vec3
  cameraChangedFlag : Bool

/-- `viewState.cameraChanged()`. -/
def ViewState.cameraChanged (vs : ViewState) : ViewState :=
  { vs with cameraChangedFlag := true }

/-- The two external clamp helpers used by `calculate`:
`ClampFocusPos(focusPos, cameraPos, upVec, options, viewState)` from
`GeneralUtils` and `viewState.clampFocusPos(options)`.  Their bodies are
not in the sources, so they are arbitrary functions of exactly the data
the source passes them. -/
structure CameraExternals where
  clampFocusPosUtil : Vec3 → Vec3 → Vec3 → Options → ViewState → Vec3 × Vec3 × Vec3
  clampFocusPosView : ViewState → Options → ViewState

/-- `CameraPanEvent` state: `_pos`, `_posDelta`, `_useDelta`. -/
structure CameraPanEvent where
  pos : MapPos
  posDelta : MapPos × MapPos
  useDelta : Bool

namespace CameraPanEvent

/-- The constructor: `_pos()`, `_posDelta()`, `_useDelta(true)`. -/
def init : CameraPanEvent :=
  { pos := default, posDelta := (default, default), useDelta := true }

/-- `getPos`. -/
def getPos (e : CameraPanEvent) : MapPos := e.pos

/-- `setPos`: stores the position and clears `_useDelta`. -/
def setPos (e : CameraPanEvent) (p : MapPos) : CameraPanEvent :=
  { e with pos := p, useDelta := false }

/-- `getPosDelta`. -/
def getPosDelta (e : CameraPanEvent) : MapPos × MapPos := e.posDelta

/-- `setPosDelta`: stores the delta pair and sets `_useDelta`. -/
def setPosDelta (e : CameraPanEvent) (pq : MapPos × MapPos) : CameraPanEvent :=
  { e with posDelta := pq, useDelta := true }

/-- `isUseDelta`. -/
def isUseDelta (e : CameraPanEvent) : Bool := e.useDelta

/-- `CameraPanEvent::calculate(options, viewState)`, line by line from the
source: early return when the projection surface is null; otherwise build
the translate matrix from the delta pair or from the focus position and the
absolute position; transform the focus position, camera position and up
vector; clamp; store; clamp again; and mark the camera changed. -/
def calculate (ext : CameraExternals) (e : CameraPanEvent) (options : Options)
    (viewState : ViewState) : ViewState :=
  match viewState.projectionSurface with
  | none => viewState
  | some projectionSurface =>
      let cameraPos := viewState.cameraPos
      let focusPos := viewState.focusPos
      let upVec := viewState.upVec
      let translateTransform :=
        if e.useDelta then
          let pos0 := projectionSurface.calculatePosition e.posDelta.1
          let pos1 := projectionSurface.calculatePosition e.posDelta.2
          projectionSurface.calculateTranslateMatrix pos0 pos1
        else
          let pos := projectionSurface.calculatePosition e.pos
          projectionSurface.calculateTranslateMatrix focusPos pos
      let focusPos := transform_point focusPos translateTransform
      let cameraPos := transform_point cameraPos translateTransform
      let upVec := transform_vector upVec translateTransform
      let clamped := ext.clampFocusPosUtil focusPos cameraPos upVec options viewState
      let viewState2 :=
        { viewState with
            cameraPos := clamped.2.1, focusPos := clamped.1, upVec := clamped.2.2 }
      let viewState3 := ext.clampFocusPosView viewState2 options
      viewState3.cameraChanged

end CameraPanEvent

/-- **C9.** When the view state's projection surface is null, `calculate`
returns without modifying the view state at all: no camera position, focus
position, up vector or camera-changed update occurs. -/
theorem calculate_noop_without_projection_surface (ext : CameraExternals)
    (e : CameraPanEvent) (options : Options) (viewState : ViewState)
    (h : viewState.projectionSurface = none) :
    CameraPanEvent.calculate ext e options viewState = viewState := by
  rw [CameraPanEvent.calculate, h]

/-- Externals used by the C9 witness: identity clamps. -/
def identityExternalsA : CameraExternals :=
  { clampFocusPosUtil := fun f c u _ _ => (f, c, u),
    clampFocusPosView := fun vs _ => vs }

/-- Witness for C9 at a concrete input. -/
theorem calculate_noop_without_projection_surface_witness :
    CameraPanEvent.calculate identityExternalsA CameraPanEvent.init Options.mk
      { projectionSurface := none, cameraPos := default, focusPos := default,
        upVec := default, cameraChangedFlag := false } =
      { projectionSurface := none, cameraPos := default, focusPos := default,
        upVec := default, cameraChangedFlag := false } :=
  calculate_noop_without_projection_surface identityExternalsA CameraPanEvent.init
    Options.mk _ rfl

/-- A setter call on a `CameraPanEvent`: the only two operations that touch
`_useDelta` after construction. -/
inductive PanOp where
  | setPos (p : MapPos)
  | setPosDelta (pq : MapPos × MapPos)

/-- Apply one setter call. -/
def applyPanOp (e : CameraPanEvent) : PanOp → CameraPanEvent
  | .setPos p => e.setPos p
  | .setPosDelta pq => e.setPosDelta pq

/-- Apply a sequence of setter calls from left to right. -/
def applyPanOps (ops : List PanOp) (e : CameraPanEvent) : CameraPanEvent :=
  ops.foldl applyPanOp e

/-- `isUseDelta` after a sequence of setters reflects the most recent one
(or the constructor's `true` when there was none). -/
theorem isUseDelta_applyPanOps (ops : List PanOp) (e : CameraPanEvent) :
    (applyPanOps ops e).isUseDelta =
      (match ops.getLast? with
        | none => e.isUseDelta
        | some (.setPos _) => false
        | some (.setPosDelta _) => true) := by
  induction ops generalizing e with
  | nil => rfl
  | cons op ops ih =>
      have hstep : applyPanOps (op :: ops) e = applyPanOps ops (applyPanOp e op) := rfl
      rw [hstep, ih]
      cases ops with
      | nil =>
          cases op with
          | setPos p => rfl
          | setPosDelta pq => rfl
      | cons op2 ops2 =>
          have hlast : (op :: op2 :: ops2).getLast? = (op2 :: ops2).getLast? := by
            simp [List.getLast?_cons_cons]
          rw [hlast]
          rcases hl : (op2 :: ops2).getLast? with _ | op3
          · exact absurd hl (by simp)
          · cases op3 <;> rfl

/-- The shared tail of `calculate` once the translate matrix has been
chosen: transform the three vectors by it, clamp, store, clamp again, and
mark the camera changed. -/
def applyTranslateTransform (ext : CameraExternals) (options : Options)
    (viewState : ViewState) (translateTransform : TranslateTransform) : ViewState :=
  let focusPos := transform_point viewState.focusPos translateTransform
  let cameraPos := transform_point viewState.cameraPos translateTransform
  let upVec := transform_vector viewState.upVec translateTransform
  let clamped := ext.clampFocusPosUtil focusPos cameraPos upVec options viewState
  let viewState2 :=
    { viewState with
        cameraPos := clamped.2.1, focusPos := clamped.1, upVec := clamped.2.2 }
  (ext.clampFocusPosView viewState2 options).cameraChanged

/-- **C10.** `isUseDelta` is true after construction, true after every
`setPosDelta`, false after every `setPos`, and after any sequence of setter
calls it reflects whether the most recent one was `setPosDelta`; and when
the projection surface is present, `calculate` applies the translation
built from the delta pair exactly when `isUseDelta` is true, and otherwise
the translation taking the focus position to the absolute position set by
`setPos`. -/
theorem isUseDelta_tracks_last_setter :
    CameraPanEvent.init.isUseDelta = true ∧
    (∀ (e : CameraPanEvent) (p : MapPos), (e.setPos p).isUseDelta = false) ∧
    (∀ (e : CameraPanEvent) (pq : MapPos × MapPos),
      (e.setPosDelta pq).isUseDelta = true) ∧
    (∀ ops : List PanOp,
      (applyPanOps ops CameraPanEvent.init).isUseDelta =
        (match ops.getLast? with
          | none => true
          | some (.setPos _) => false
          | some (.setPosDelta _) => true)) ∧
    (∀ (ext : CameraExternals) (e : CameraPanEvent) (options : Options)
        (viewState : ViewState) (surface : ProjectionSurface),
      viewState.projectionSurface = some surface →
      (e.isUseDelta = true →
        CameraPanEvent.calculate ext e options viewState =
          applyTranslateTransform ext options viewState
            (surface.calculateTranslateMatrix
              (surface.calculatePosition e.posDelta.1)
              (surface.calculatePosition e.posDelta.2))) ∧
      (e.isUseDelta = false →
        CameraPanEvent.calculate ext e options viewState =
          applyTranslateTransform ext options viewState
            (surface.calculateTranslateMatrix viewState.focusPos
              (surface.calculatePosition e.pos)))) := by
  refine ⟨rfl, fun _ _ => rfl, fun _ _ => rfl, ?_, ?_⟩
  · intro ops
    exact isUseDelta_applyPanOps ops CameraPanEvent.init
  · intro ext e options viewState surface hsurf
    constructor
    · intro hd
      rw [CameraPanEvent.isUseDelta] at hd
      simp only [CameraPanEvent.calculate, applyTranslateTransform, hsurf, hd,
        if_true, ViewState.cameraChanged]
    · intro hd
      rw [CameraPanEvent.isUseDelta] at hd
      simp only [CameraPanEvent.calculate, applyTranslateTransform, hsurf, hd,
        Bool.false_eq_true, if_false, ViewState.cameraChanged]

/-- Externals used by the C10 witness: identity clamps. -/
def identityExternalsB : CameraExternals :=
  { clampFocusPosUtil := fun f c u _ _ => (f, c, u),
    clampFocusPosView := fun vs _ => vs }

/-- Projection surface used by the C10 witness: constant functions. -/
def constSurfaceB : ProjectionSurface :=
  { calculatePosition := fun _ => default,
    calculateTranslateMatrix := fun _ _ =>
      { applyToPoint := fun v => v, applyToVec := fun v => v } }

/-- View state used by the C10 witness. -/
def viewStateB : ViewState :=
  { projectionSurface := some constSurfaceB, cameraPos := default,
    focusPos := default, upVec := default, cameraChangedFlag := false }

/-- Witness for C10 at concrete inputs. -/
theorem isUseDelta_tracks_last_setter_witness :
    (applyPanOps [PanOp.setPosDelta (default, default), PanOp.setPos default]
        CameraPanEvent.init).isUseDelta = false ∧
    CameraPanEvent.calculate identityExternalsB CameraPanEvent.init Options.mk
        viewStateB =
      applyTranslateTransform identityExternalsB Options.mk viewStateB
        (constSurfaceB.calculateTranslateMatrix
          (constSurfaceB.calculatePosition CameraPanEvent.init.posDelta.1)
          (constSurfaceB.calculatePosition CameraPanEvent.init.posDelta.2)) :=
  ⟨isUseDelta_tracks_last_setter.2.2.2.1
      [PanOp.setPosDelta (default, default), PanOp.setPos default],
    (isUseDelta_tracks_last_setter.2.2.2.2 identityExternalsB CameraPanEvent.init
      Options.mk viewStateB constSurfaceB rfl).1 rfl⟩

end MobileSdk
